import Mathlib

/-!
Verification of the post-selection and report-assembly pipeline of the
CSV profile transcriber (`csv_profile_transcriber.py`, `runpod_handler.py`).

The Python code is shallowly embedded: dynamically-typed cell values become
the inductive type `Value`, a row record (Python dict) becomes an association
list `PostRec` with insertion-order semantics, and code that can raise an
exception returns `Option`/`Except`, where `none`/`error` marks a raised
exception that the modelled fragment does not catch.
-/

/-- A Python float as far as the pipeline observes it: `int(f)` truncates a
finite float toward zero and raises on `nan`/`inf`/`-inf`; comparisons with
`0` are decidable on the rational value.  Every finite IEEE float is an exact
rational, so a finite float is carried as its rational value. -/
inductive PyFloat where
  | nan : PyFloat
  | inf : PyFloat
  | neginf : PyFloat
  | finite (q : ℚ) : PyFloat
deriving DecidableEq

/-- A dynamically-typed CSV cell value.  `vNone` models Python `None` (and
stands for any value that is neither `str`, `int` nor `float`): comparing it
with an integer raises `TypeError`, while `isinstance` checks on it fail. -/
inductive Value where
  | vStr (s : String) : Value
  | vInt (n : Int) : Value
  | vFloat (f : PyFloat) : Value
  | vNone : Value
deriving DecidableEq

/-- A row record: a Python dict as an association list in insertion order.
Dicts produced by the code have pairwise-distinct keys. -/
abbrev PostRec := List (String × Value)

/-- Models `post.get(key, dflt)`. -/
def pyGet (post : PostRec) (key : String) (dflt : Value) : Value :=
  match post.lookup key with
  | some v => v
  | none => dflt

/-- Models `s.replace(',', '')` (the pattern is a single character, so the
replacement is exactly a character filter). -/
def stripCommas (s : String) : String :=
  ⟨s.data.filter (fun c => c ≠ ',')⟩

/-- Models `s.replace(',', '').replace(' ', '')`. -/
def stripCommasSpaces (s : String) : String :=
  ⟨s.data.filter (fun c => c ≠ ',' ∧ c ≠ ' ')⟩

/-- Models Python `int(s)` on a decimal string: surrounding whitespace is
ignored, an optional single sign is followed by a nonempty digit string;
anything else raises `ValueError` (`none`).  (Python's underscore digit
grouping is not modelled; no input of interest uses it.) -/
def pyInt (s : String) : Option Int :=
  let t := s.data.dropWhile Char.isWhitespace
  let t := (t.reverse.dropWhile Char.isWhitespace).reverse
  match t with
  | [] => none
  | c :: rest =>
    let sgn : Bool × List Char :=
      if c = '-' then (true, rest)
      else if c = '+' then (false, rest)
      else (false, c :: rest)
    if sgn.2.isEmpty ∨ ¬ (sgn.2.all Char.isDigit) then none
    else
      let n : Nat := sgn.2.foldl (fun a d => a * 10 + (d.toNat - 48)) 0
      some (if sgn.1 then -(n : Int) else (n : Int))

/-- Models Python `int(f)` on a finite float: truncation toward zero. -/
def ratTrunc (q : ℚ) : Int :=
  if 0 ≤ q then ⌊q⌋ else ⌈q⌉

/-- The value is a float on which `int()` raises (`nan`, `inf`, `-inf`). -/
def nonFiniteFloat : Value → Bool
  | Value.vFloat PyFloat.nan => true
  | Value.vFloat PyFloat.inf => true
  | Value.vFloat PyFloat.neginf => true
  | _ => false

/-- Models `get_numeric_value(post, key)` (lines 137-150): missing key
defaults to `0`; a string has commas and spaces removed and is parsed by
`int`, parse failure yielding `0`; an int is returned as is; a float goes
through `int(value)`, which truncates finite floats and raises (`none`) on
`nan`/`inf`; any other value yields `0`. -/
def get_numeric_value (post : PostRec) (key : String) : Option Int :=
  match pyGet post key (Value.vInt 0) with
  | Value.vStr s => some ((pyInt (stripCommasSpaces s)).getD 0)
  | Value.vInt n => some n
  | Value.vFloat PyFloat.nan => none
  | Value.vFloat PyFloat.inf => none
  | Value.vFloat PyFloat.neginf => none
  | Value.vFloat (PyFloat.finite q) => some (ratTrunc q)
  | Value.vNone => some 0

/-- Models `filter_non_pinned_posts(posts)` (lines 120-131): with
at most 3 posts the list is returned unchanged, otherwise the first 3
records are dropped. -/
def filter_non_pinned_posts (posts : List PostRec) : List PostRec :=
  if posts.length ≤ 3 then posts else posts.drop 3

/-- Models `select_top_posts(posts, count)` (lines 175-179): `posts[:count]`
for `count ≥ 0`. -/
def select_top_posts (posts : List PostRec) (count : Nat) : List PostRec :=
  posts.take count

/-- Models Python `pat in hay` on strings, for nonempty `pat`: some tail of
`hay` starts with `pat`. -/
def strContains (hay pat : String) : Bool :=
  hay.data.tails.any (fun t => pat.data.isPrefixOf t)

/-- Models the `view_count > 0` comparison in `filter_video_posts`
(lines 107-114) after its string branch: a string is comma-stripped and
parsed with failures becoming `0`; `nan > 0` and `-inf > 0` are false and
`inf > 0` is true without any conversion; comparing `None` with `0`
raises `TypeError` (`none`). -/
def viewCountPos : Value → Option Bool
  | Value.vStr s => some (decide (0 < (pyInt (stripCommas s)).getD 0))
  | Value.vInt n => some (decide (0 < n))
  | Value.vFloat PyFloat.nan => some false
  | Value.vFloat PyFloat.inf => some true
  | Value.vFloat PyFloat.neginf => some false
  | Value.vFloat (PyFloat.finite q) => some (decide (0 < q))
  | Value.vNone => none

/-- One loop iteration of `filter_video_posts` (lines 101-115): whether the
record is retained; `none` when the iteration raises (a non-string `url`
value, or a `None` view count reached by the comparison). -/
def keepVideoPost (post : PostRec) : Option Bool :=
  match pyGet post "url" (Value.vStr "") with
  | Value.vStr url =>
    if strContains url "/reel/" || strContains url "/p/" then
      match viewCountPos (pyGet post "view_count" (Value.vInt 0)) with
      | some b => some (b || strContains url "/reel/")
      | none => none
    else some false
  | _ => none

/-- Models `filter_video_posts(posts)` (lines 97-118); `none` when some
iteration raises (the exception propagates out of the loop). -/
def filter_video_posts : List PostRec → Option (List PostRec)
  | [] => some []
  | p :: ps =>
    match keepVideoPost p with
    | none => none
    | some b =>
      match filter_video_posts ps with
      | none => none
      | some rest => some (if b then p :: rest else rest)

/-- Models `key.lower()`.  Lean's `Char.toLower` handles the basic latin
letters, matching Python on the ASCII headers the pipeline sees. -/
def pyLower (s : String) : String :=
  ⟨s.data.map Char.toLower⟩

/-- The `column_mappings` dict of `normalize_column_names` (lines 69-82). -/
def column_mappings_table : List (String × String) :=
  [("reel", "url"), ("post_url", "url"), ("link", "url"),
   ("views", "view_count"), ("view_count", "view_count"),
   ("likes", "like_count"), ("like_count", "like_count"),
   ("comments", "comment_count"), ("comment_count", "comment_count"),
   ("profile", "profile_name"), ("username", "profile_name"),
   ("account", "profile_name")]

/-- Models the dict lookup `column_mappings.get(k)`. -/
def column_mappings (k : String) : Option String :=
  column_mappings_table.lookup k

/-- Models `column_mappings.get(key.lower(), key.lower())` (line 90). -/
def normKey (k : String) : String :=
  (column_mappings (pyLower k)).getD (pyLower k)

/-- Models `d[k] = v` on a Python dict in association-list form: an existing
key keeps its position (and its first-inserted key object), a new key is
appended. -/
def dictInsert (d : List (String × Value)) (k : String) (v : Value) :
    List (String × Value) :=
  if d.any (fun kv => kv.1 = k) then
    d.map (fun kv => if kv.1 = k then (kv.1, v) else kv)
  else d ++ [(k, v)]

/-- The per-record body of `normalize_column_names` (lines 86-93): rebuild
the dict with each key normalized, in iteration order, later writes to a
colliding normalized key overwriting earlier ones. -/
def normalizeRecord (post : PostRec) : PostRec :=
  post.foldl (fun acc kv => dictInsert acc (normKey kv.1) kv.2) []

/-- Models `normalize_column_names(posts)` (lines 63-95). -/
def normalize_column_names (posts : List PostRec) : List PostRec :=
  if posts.isEmpty then posts else posts.map normalizeRecord

/-- The sort key of `sort_posts_by_metric`: the coerced value when coercion
succeeds (the sorted branch is only taken in that case). -/
def sortKey (f : String) (p : PostRec) : Int :=
  (get_numeric_value p f).getD 0

/-- Models `sort_posts_by_metric(posts, sort_by)` (lines 133-173).  Python's
`sorted(posts, key=..., reverse=True)` is the stable descending sort by the
key, embedded as `List.insertionSort` with the reversed comparison; if any
key computation raises — the only failing step in the `try` block — the
`except` branch returns the input unchanged. -/
def sort_posts_by_metric (posts : List PostRec) (sort_by : String) :
    List PostRec :=
  if posts.all (fun p => (get_numeric_value p sort_by).isSome) then
    List.insertionSort (fun a b => sortKey sort_by b ≤ sortKey sort_by a) posts
  else posts

/-- Models `read_csv_data(csv_file)` (lines 28-61).  The two parse
strategies are I/O; each is embedded as its outcome: the parsed records, or
the exception it raised.  The primary result is used when it succeeds, else
the fallback result, else the empty list. -/
def read_csv_data (primary fallback : Except String (List PostRec)) :
    List PostRec :=
  match primary with
  | Except.ok posts => posts
  | Except.error _ =>
    match fallback with
    | Except.ok posts => posts
    | Except.error _ => []

/-- Models Python `str(v)` where the pipeline applies it to a cell value
(profile-name detection and f-strings).  The decimal rendering of a finite
float is abstracted as the rational's `toString`; no claim depends on it. -/
def pyStr : Value → String
  | Value.vStr s => s
  | Value.vInt n => toString n
  | Value.vFloat PyFloat.nan => "nan"
  | Value.vFloat PyFloat.inf => "inf"
  | Value.vFloat PyFloat.neginf => "-inf"
  | Value.vFloat (PyFloat.finite q) => toString q
  | Value.vNone => "None"

/-- The profile-name auto-detection of `process_csv_file` (lines 397-401):
the first record's `profile_name` field if present, else the CSV file's
stem. -/
def autoProfile (posts : List PostRec) (csv_stem : String) : String :=
  match posts.head? with
  | some r =>
    match r.lookup "profile_name" with
    | some v => pyStr v
    | none => csv_stem
  | none => csv_stem

/-- Models `process_csv_file` (lines 368-420).  `transcribePosts` stands for
`transcribe_posts` — the media-pipeline boundary (download, audio
extraction, speech-to-text): its result is `none` when no post was
successfully transcribed.  The overall result is `Except.error ()` when the
pipeline raises (only `filter_video_posts` can), and `Except.ok none` on the
graceful "nothing to process" returns. -/
def process_csv_file (primary fallback : Except String (List PostRec))
    (csv_stem : String) (top_count : Nat) (sort_by : String)
    (filter_pinned : Bool) (profile_name : Option String)
    (quick_transcribe : Bool)
    (transcribePosts : List PostRec → String → Bool → Option String) :
    Except Unit (Option String) :=
  let posts := read_csv_data primary fallback
  if posts.isEmpty then Except.ok none
  else
    let nposts := normalize_column_names posts
    let profile : String :=
      match profile_name with
      | some p => if p.isEmpty then autoProfile nposts csv_stem else p
      | none => autoProfile nposts csv_stem
    match filter_video_posts nposts with
    | none => Except.error ()
    | some vposts =>
      if vposts.isEmpty then Except.ok none
      else
        let pposts := if filter_pinned then filter_non_pinned_posts vposts else vposts
        let sposts := sort_posts_by_metric pposts sort_by
        let top := select_top_posts sposts top_count
        Except.ok (transcribePosts top profile quick_transcribe)

/-- Models `l.takeWhile (· ≠ c)`: Python `s.split(c)[0]` for a single-char
separator. -/
def takeUntilChar (c : Char) (l : List Char) : List Char :=
  l.takeWhile (fun x => x ≠ c)

/-- The suffix of `hay` after the first occurrence of the nonempty `pat`;
`none` when `pat` does not occur.  `some` agrees with Python
`hay.split(pat)[1]` up to (and past) the next `'/'`, because any later
occurrence of `pat = "/reel/"` begins with `'/'`. -/
def afterFirst (pat : List Char) : List Char → Option (List Char)
  | [] => none
  | c :: rest =>
    if pat.isPrefixOf (c :: rest) then some ((c :: rest).drop pat.length)
    else afterFirst pat rest

/-- Models `extract_reel_id(url)` (lines 355-366): the path segment after
`/reel/`, cut at the next `'/'`, stripped of a query string, truncated to 10
characters; `"unknown"` when the URL has no `/reel/` marker. -/
def extract_reel_id (url : String) : String :=
  match afterFirst "/reel/".data url.data with
  | some t => ⟨List.take 10 (takeUntilChar '?' (takeUntilChar '/' t))⟩
  | none => "unknown"

/-- The deterministically computed filename of `create_combined_document`
(lines 257-264): the quick scheme when the quick flag is set with exactly
one transcription, else the batch scheme.  `n` is the number of
transcriptions, `firstUrl` the first transcription's URL, `ts` the
timestamp taken when the quick name is built. -/
def computedFilename (quick_transcribe : Bool) (n : Nat) (firstUrl : String)
    (profile_name ts : String) : String :=
  if quick_transcribe && n == 1 then
    "quick_" ++ profile_name ++ "_" ++ extract_reel_id firstUrl ++ "_" ++ ts ++ ".txt"
  else
    profile_name ++ "top" ++ toString n ++ "transcripts.txt"

/-- The filename decision of `create_combined_document` (lines 254-271):
`existing` is the set of names already present in the output directory and
`ts2` the fresh timestamp taken at the collision check.  Note the collision
branch (lines 269-271) always rebuilds the batch-scheme name. -/
def create_combined_document_filename (existing : List String)
    (quick_transcribe : Bool) (n : Nat) (firstUrl : String)
    (profile_name ts ts2 : String) : String :=
  let filename := computedFilename quick_transcribe n firstUrl profile_name ts
  if existing.contains filename then
    profile_name ++ "top" ++ toString n ++ "transcripts_" ++ ts2 ++ ".txt"
  else filename

/-- The JSON response dict of the serverless `handler`
(`runpod_handler.py`): absent keys are `none`. -/
structure HandlerResponse where
  success : Bool
  output_file : Option String := none
  output_text : Option String := none
  filename : Option String := none
  profile_name : Option String := none
  message : Option String := none
  error : Option String := none
deriving DecidableEq

/-- Models Python `str()` on an `Optional[str]`: `str(None) = "None"`. -/
def pyStrOfOption : Option String → String
  | none => "None"
  | some s => s

/-- Models `Path(p).name`: the component after the last `'/'`. -/
def pathName (p : String) : String :=
  ⟨(takeUntilChar '/' p.data.reverse).reverse⟩

/-- Models `handler(event)` (`runpod_handler.py`, lines 6-72).  `posts` and
`profile_name` are the request fields; `run` is the outcome of the try-block
body through `process_csv_file` (temp-CSV materialization plus pipeline):
`Except.error e` when it raises with message `e`, otherwise the returned
optional report path.  `readFile` models `Path(f).exists()` plus reading:
`some` content exactly when the file exists. -/
def handler (posts : List PostRec) (profile_name : String)
    (run : Except String (Option String))
    (readFile : String → Option String) : HandlerResponse :=
  if posts.isEmpty then { success := false, error := some "No posts provided" }
  else
    match run with
    | Except.error e => { success := false, error := some e }
    | Except.ok result_file =>
      let content : Option String :=
        match result_file with
        | some p => readFile p
        | none => none
      match content with
      | some txt =>
        { success := true
          output_file := some (pyStrOfOption result_file)
          output_text := some txt
          filename := some (pathName (result_file.getD ""))
          profile_name := some profile_name
          message := some "Transcription completed successfully" }
      | none =>
        { success := true
          output_file := some (pyStrOfOption result_file)
          output_text := none
          filename := some (profile_name ++ "_transcription.txt")
          profile_name := some profile_name
          message := some "Transcription completed successfully" }

/-- A concrete worked example: four video records with comma-formatted,
plain-string and integer view counts, including a tie at 1000. -/
def demoPosts : List PostRec :=
  [[("url", Value.vStr "https://x/reel/A/"), ("view_count", Value.vStr "1,000")],
   [("url", Value.vStr "https://x/reel/B/"), ("view_count", Value.vInt 2000)],
   [("url", Value.vStr "https://x/reel/C/"), ("view_count", Value.vStr "50")],
   [("url", Value.vStr "https://x/reel/D/"), ("view_count", Value.vInt 1000)]]

/-- C4: the pinned-post filter returns the list unchanged when its length is
at most 3, otherwise exactly the records after the first 3 in order, and its
output is nonempty whenever its input is. -/
theorem filter_non_pinned_posts_spec (posts : List PostRec) :
    (posts.length ≤ 3 → filter_non_pinned_posts posts = posts) ∧
    (3 < posts.length → filter_non_pinned_posts posts = posts.drop 3) ∧
    (posts ≠ [] → filter_non_pinned_posts posts ≠ []) := by
  refine ⟨fun h => if_pos h, fun h => if_neg (by omega), fun hne => ?_⟩
  unfold filter_non_pinned_posts
  split
  · exact hne
  · next h =>
    have hlen : posts.length - 3 ≠ 0 := by omega
    intro hcon
    have := congrArg List.length hcon
    simp [List.length_drop] at this
    omega

/-- Witness for C4 at concrete inputs: a 4-record list loses exactly its
first 3 records and stays nonempty, a 2-record list is untouched. -/
theorem filter_non_pinned_posts_spec_witness :
    (filter_non_pinned_posts
        [[("url", Value.vStr "a")], [("url", Value.vStr "b")],
         [("url", Value.vStr "c")], [("url", Value.vStr "d")]] =
      [[("url", Value.vStr "d")]]) ∧
    (filter_non_pinned_posts [[("url", Value.vStr "a")], [("url", Value.vStr "b")]] =
      [[("url", Value.vStr "a")], [("url", Value.vStr "b")]]) ∧
    filter_non_pinned_posts
        [[("url", Value.vStr "a")], [("url", Value.vStr "b")],
         [("url", Value.vStr "c")], [("url", Value.vStr "d")]] ≠ [] := by
  refine ⟨?_, ?_, ?_⟩
  · have h := (filter_non_pinned_posts_spec
      [[("url", Value.vStr "a")], [("url", Value.vStr "b")],
       [("url", Value.vStr "c")], [("url", Value.vStr "d")]]).2.1 (by decide)
    rw [h]; rfl
  · exact (filter_non_pinned_posts_spec
      [[("url", Value.vStr "a")], [("url", Value.vStr "b")]]).1 (by decide)
  · exact (filter_non_pinned_posts_spec
      [[("url", Value.vStr "a")], [("url", Value.vStr "b")],
       [("url", Value.vStr "c")], [("url", Value.vStr "d")]]).2.2 (by decide)

/-- C7: the selector returns exactly the first `min count length` records in
order (a prefix of the input of that length), with no error path. -/
theorem select_top_posts_spec (posts : List PostRec) (count : Nat) :
    (select_top_posts posts count).length = min count posts.length ∧
    select_top_posts posts count <+: posts := by
  exact ⟨List.length_take count posts, List.take_prefix count posts⟩

/-- C1 fails on the code as stated: `int(float('nan'))` raises `ValueError`
inside `get_numeric_value` (the guard `except` only wraps the string
branch), and a negative stored count is returned as a negative integer. -/
theorem get_numeric_value_claim_cex :
    get_numeric_value [("view_count", Value.vFloat PyFloat.nan)] "view_count" = none ∧
    get_numeric_value [("like_count", Value.vInt (-7))] "like_count" = some (-7) ∧
    (-7 : Int) < 0 := by
  refine ⟨rfl, rfl, by decide⟩

/-- C1 (amended): numeric coercion terminates and returns an integer for
every field value that is not a non-finite float (`nan`/`inf`/`-inf`, on
which `int()` raises); a string value whose parse fails after comma/space
removal coerces to `0`. -/
theorem get_numeric_value_total (post : PostRec) (key : String)
    (h : nonFiniteFloat (pyGet post key (Value.vInt 0)) = false) :
    (get_numeric_value post key).isSome = true ∧
    (∀ s, pyGet post key (Value.vInt 0) = Value.vStr s →
      pyInt (stripCommasSpaces s) = none →
      get_numeric_value post key = some 0) := by
  unfold get_numeric_value
  unfold nonFiniteFloat at h
  constructor
  · cases hv : pyGet post key (Value.vInt 0) with
    | vStr s => rfl
    | vInt n => rfl
    | vNone => rfl
    | vFloat f =>
      cases f with
      | nan => rw [hv] at h; exact absurd h (by simp)
      | inf => rw [hv] at h; exact absurd h (by simp)
      | neginf => rw [hv] at h; exact absurd h (by simp)
      | finite q => rfl
  · intro s hs hparse
    rw [hs]
    simp only []
    rw [hparse]
    rfl

/-- Witness for C1 (amended): the unparsable string `"12a"` coerces
to `0`. -/
theorem get_numeric_value_total_witness :
    (get_numeric_value [("view_count", Value.vStr "12a")] "view_count").isSome = true ∧
    get_numeric_value [("view_count", Value.vStr "12a")] "view_count" = some 0 := by
  have h := get_numeric_value_total [("view_count", Value.vStr "12a")] "view_count" (by decide)
  exact ⟨h.1, h.2 "12a" rfl (by decide)⟩

/-- The video filter keeps a subsequence of its input records. -/
theorem filter_video_posts_sublist (posts out : List PostRec)
    (h : filter_video_posts posts = some out) : out.Sublist posts := by
  induction posts generalizing out with
  | nil =>
    unfold filter_video_posts at h
    cases h
    exact List.Sublist.refl _
  | cons p ps ih =>
    unfold filter_video_posts at h
    cases hk : keepVideoPost p with
    | none => rw [hk] at h; cases h
    | some b =>
      rw [hk] at h
      cases hr : filter_video_posts ps with
      | none => rw [hr] at h; cases h
      | some rest =>
        rw [hr] at h
        cases h
        cases b with
        | true => simpa using List.Sublist.cons₂ p (ih rest hr)
        | false => simpa using List.Sublist.cons p (ih rest hr)

/-- C9: both filters are non-destructive to record content: whenever the
video filter returns (rather than raising), its output is a subsequence of
its input — each retained record equal to the corresponding input record —
and likewise the pinned-post filter's output is a subsequence of its
input. -/
theorem filters_nondestructive (posts out : List PostRec)
    (h : filter_video_posts posts = some out) :
    out.Sublist posts ∧ (filter_non_pinned_posts posts).Sublist posts := by
  refine ⟨filter_video_posts_sublist posts out h, ?_⟩
  unfold filter_non_pinned_posts
  split
  · exact List.Sublist.refl _
  · exact List.drop_sublist 3 posts

/-- Witness for C9 at a concrete input: a reel record is retained untouched
while a non-video record is dropped. -/
theorem filters_nondestructive_witness :
    ([[("url", Value.vStr "https://x/reel/A1/")]] : List PostRec).Sublist
      [[("url", Value.vStr "https://x/reel/A1/")], [("url", Value.vStr "https://x/tv/B2/")]] ∧
    (filter_non_pinned_posts
      [[("url", Value.vStr "https://x/reel/A1/")], [("url", Value.vStr "https://x/tv/B2/")]]).Sublist
      [[("url", Value.vStr "https://x/reel/A1/")], [("url", Value.vStr "https://x/tv/B2/")]] :=
  filters_nondestructive
    [[("url", Value.vStr "https://x/reel/A1/")], [("url", Value.vStr "https://x/tv/B2/")]]
    [[("url", Value.vStr "https://x/reel/A1/")]]
    (by decide)

/-- C6: when both parse strategies raise, the reader returns the empty list
rather than an exception, and the pipeline then returns gracefully with no
result ("nothing to process") instead of crashing. -/
theorem read_csv_both_fail_graceful (e1 e2 : String) (stem : String)
    (n : Nat) (f : String) (fp : Bool) (prof : Option String) (qt : Bool)
    (tr : List PostRec → String → Bool → Option String) :
    read_csv_data (Except.error e1) (Except.error e2) = [] ∧
    process_csv_file (Except.error e1) (Except.error e2) stem n f fp prof qt tr =
      Except.ok none :=
  ⟨rfl, rfl⟩

/-- C8: if evaluating the sort raises — the numeric coercion of some
record's field value fails — the Ranker returns its input unchanged instead
of propagating the exception. -/
theorem sort_posts_by_metric_exception (posts : List PostRec) (f : String)
    (h : ∃ p ∈ posts, get_numeric_value p f = none) :
    sort_posts_by_metric posts f = posts := by
  unfold sort_posts_by_metric
  rw [if_neg]
  intro hall
  rw [List.all_eq_true] at hall
  obtain ⟨p, hp, hnone⟩ := h
  have hs := hall p hp
  rw [hnone] at hs
  simp at hs

/-- Witness for C8: a record whose view count is float `nan` makes the sort
raise, and the input order is returned. -/
theorem sort_posts_by_metric_exception_witness :
    sort_posts_by_metric
      [[("view_count", Value.vFloat PyFloat.nan)], [("view_count", Value.vInt 5)]]
      "view_count" =
    [[("view_count", Value.vFloat PyFloat.nan)], [("view_count", Value.vInt 5)]] :=
  sort_posts_by_metric_exception
    [[("view_count", Value.vFloat PyFloat.nan)], [("view_count", Value.vInt 5)]]
    "view_count"
    ⟨[("view_count", Value.vFloat PyFloat.nan)], by simp, rfl⟩

/-- C10: with a nonempty request whose pipeline run returns no report, the
handler still answers `success = True` with `output_file = "None"` (the
Python `str` of `None`), no output text, and the fallback filename
`<profile>_transcription.txt`; and `success = False` only arises from an
empty request or an escaped exception. -/
theorem handler_none_result (posts : List PostRec) (profile : String)
    (readFile : String → Option String) (hne : posts ≠ []) :
    handler posts profile (Except.ok none) readFile =
      { success := true, output_file := some "None", output_text := none,
        filename := some (profile ++ "_transcription.txt"),
        profile_name := some profile,
        message := some "Transcription completed successfully" } ∧
    (∀ run : Except String (Option String),
      (handler posts profile run readFile).success = false →
      posts = [] ∨ ∃ e, run = Except.error e) := by
  constructor
  · unfold handler
    rw [if_neg (by simpa [List.isEmpty_iff] using hne)]
    rfl
  · intro run hfalse
    by_cases hemp : posts.isEmpty
    · exact Or.inl (List.isEmpty_iff.mp hemp)
    · cases run with
      | error e => exact Or.inr ⟨e, rfl⟩
      | ok rf =>
        exfalso
        have hsucc : (handler posts profile (Except.ok rf) readFile).success = true := by
          unfold handler
          rw [if_neg hemp]
          cases rf with
          | none => rfl
          | some p =>
            cases hr : readFile p with
            | none => simp only [hr]
            | some txt => simp only [hr]
        rw [hfalse] at hsucc
        exact Bool.noConfusion hsucc

/-- Witness for C10 at a concrete request of one post. -/
theorem handler_none_result_witness :
    handler [[("url", Value.vStr "u")]] "alice" (Except.ok none) (fun _ => none) =
      { success := true, output_file := some "None", output_text := none,
        filename := some "alice_transcription.txt",
        profile_name := some "alice",
        message := some "Transcription completed successfully" } ∧
    (([[("url", Value.vStr "u")]] : List PostRec) = [] ∨
      ∃ e, (Except.error "boom" : Except String (Option String)) = Except.error e) := by
  have h := handler_none_result [[("url", Value.vStr "u")]] "alice"
    (fun _ => none) (by decide)
  exact ⟨h.1, h.2 (Except.error "boom") (by decide)⟩

/-- C3 fails on the code as stated: in quick mode a collision is not resolved
by appending a fresh timestamp to the computed (quick-scheme) name — the
fallback always rebuilds the batch-scheme name. -/
theorem create_combined_document_filename_claim_cex :
    create_combined_document_filename
      ["quick_alice_ABC1234567_20250101_000000.txt"] true 1
      "https://www.instagram.com/alice/reel/ABC1234567xyz/?utm=1"
      "alice" "20250101_000000" "20250101_000001" =
      "alicetop1transcripts_20250101_000001.txt" ∧
    "alicetop1transcripts_20250101_000001.txt" ≠
      "quick_alice_ABC1234567_20250101_000001.txt" := by
  exact ⟨by decide, by decide⟩

/-- C3 (amended): when the computed filename (quick or batch scheme) is not
present, it is used as is; when it is already present, the report is written
under the batch-scheme name with a fresh timestamp suffix appended,
regardless of mode — in particular a colliding batch report for a profile
with N results gets `<profile>top<N>transcripts_<timestamp>.txt`. -/
theorem create_combined_document_filename_spec (existing : List String)
    (quick : Bool) (n : Nat) (firstUrl profile ts ts2 : String) :
    (existing.contains (computedFilename quick n firstUrl profile ts) = false →
      create_combined_document_filename existing quick n firstUrl profile ts ts2 =
        computedFilename quick n firstUrl profile ts) ∧
    (existing.contains (computedFilename quick n firstUrl profile ts) = true →
      create_combined_document_filename existing quick n firstUrl profile ts ts2 =
        profile ++ "top" ++ toString n ++ "transcripts_" ++ ts2 ++ ".txt") := by
  unfold create_combined_document_filename
  constructor
  · intro h
    simp only [h]
    rfl
  · intro h
    simp only [h]
    rfl

/-- Witness for C3 (amended), the spec's collision scenario: a batch report
for profile `alice` with 3 results while `alicetop3transcripts.txt` already
exists gets a distinctly timestamped name, and without the collision the
computed name is kept. -/
theorem create_combined_document_filename_spec_witness :
    create_combined_document_filename ["alicetop3transcripts.txt"] false 3
      "https://x/reel/A/" "alice" "20250102_120000" "20250102_120001" =
      "alicetop3transcripts_20250102_120001.txt" ∧
    create_combined_document_filename [] false 3
      "https://x/reel/A/" "alice" "20250102_120000" "20250102_120001" =
      "alicetop3transcripts.txt" := by
  constructor
  · have h := (create_combined_document_filename_spec ["alicetop3transcripts.txt"]
      false 3 "https://x/reel/A/" "alice" "20250102_120000" "20250102_120001").2
      (by decide)
    rw [h]; rfl
  · have h := (create_combined_document_filename_spec []
      false 3 "https://x/reel/A/" "alice" "20250102_120000" "20250102_120001").1
      (by decide)
    rw [h]; rfl

/-- Inserting an element whose key equals `v` into a list with the
descending-by-key relation prepends it to the key-`v` subsequence: every
element skipped over has a strictly larger key than the inserted one. -/
theorem orderedInsert_filter_eq {α : Type} (k : α → Int) (x : α) (v : Int)
    (l : List α) (hx : k x = v) :
    List.filter (fun p => k p == v)
      (List.orderedInsert (fun a b => k b ≤ k a) x l) =
      x :: List.filter (fun p => k p == v) l := by
  induction l with
  | nil => simp [List.orderedInsert, List.filter_cons, hx]
  | cons y ys ih =>
    rw [List.orderedInsert]
    by_cases h : k y ≤ k x
    · rw [if_pos h]
      simp [List.filter_cons, hx]
    · rw [if_neg h]
      have hy : (k y == v) = false := by
        simp only [beq_eq_false_iff_ne, ne_eq]
        omega
      rw [List.filter_cons, hy, List.filter_cons, hy]
      simpa using ih

/-- Inserting an element whose key differs from `v` leaves the key-`v`
subsequence unchanged. -/
theorem orderedInsert_filter_ne {α : Type} (k : α → Int) (x : α) (v : Int)
    (l : List α) (hx : k x ≠ v) :
    List.filter (fun p => k p == v)
      (List.orderedInsert (fun a b => k b ≤ k a) x l) =
      List.filter (fun p => k p == v) l := by
  have hxb : (k x == v) = false := by simpa using hx
  induction l with
  | nil => simp [List.orderedInsert, List.filter_cons, hxb]
  | cons y ys ih =>
    rw [List.orderedInsert]
    by_cases h : k y ≤ k x
    · rw [if_pos h, List.filter_cons, hxb]
      simp
    · rw [if_neg h, List.filter_cons, List.filter_cons]
      rw [ih]

/-- Stability of the descending insertion sort: for every key value the
subsequence of elements carrying that key is preserved. -/
theorem insertionSort_filter {α : Type} (k : α → Int) (l : List α) (v : Int) :
    List.filter (fun p => k p == v)
      (List.insertionSort (fun a b => k b ≤ k a) l) =
      List.filter (fun p => k p == v) l := by
  induction l with
  | nil => rfl
  | cons x xs ih =>
    rw [List.insertionSort]
    by_cases hx : k x = v
    · rw [orderedInsert_filter_eq k x v _ hx, ih, List.filter_cons]
      simp [hx]
    · rw [orderedInsert_filter_ne k x v _ hx, ih, List.filter_cons]
      simp [hx]

/-- C2: when every record's field value coerces (the sorted branch), the
Ranker returns a permutation of its input that is pairwise descending in the
coerced value, and is stable: for every key value the records carrying it
appear in their original relative order. -/
theorem sort_posts_by_metric_sorted_stable (posts : List PostRec) (f : String)
    (h : ∀ p ∈ posts, (get_numeric_value p f).isSome = true) :
    List.Pairwise (fun a b => sortKey f b ≤ sortKey f a)
      (sort_posts_by_metric posts f) ∧
    (sort_posts_by_metric posts f).Perm posts ∧
    ∀ v : Int,
      List.filter (fun p => sortKey f p == v) (sort_posts_by_metric posts f) =
        List.filter (fun p => sortKey f p == v) posts := by
  have hall : posts.all (fun p => (get_numeric_value p f).isSome) = true :=
    List.all_eq_true.mpr h
  unfold sort_posts_by_metric
  rw [if_pos hall]
  refine ⟨?_, List.perm_insertionSort _ _, fun v => insertionSort_filter _ _ _⟩
  haveI : IsTotal PostRec (fun a b => sortKey f b ≤ sortKey f a) :=
    ⟨fun a b => le_total _ _⟩
  haveI : IsTrans PostRec (fun a b => sortKey f b ≤ sortKey f a) :=
    ⟨fun _ _ _ h1 h2 => le_trans h2 h1⟩
  exact List.sorted_insertionSort _ _

/-- Witness for C2 on `demoPosts`: the sorted output is pairwise descending,
a permutation of the input, and the two records tied at 1000 views keep
their input order. -/
theorem sort_posts_by_metric_sorted_stable_witness :
    List.Pairwise (fun a b => sortKey "view_count" b ≤ sortKey "view_count" a)
      (sort_posts_by_metric demoPosts "view_count") ∧
    (sort_posts_by_metric demoPosts "view_count").Perm demoPosts ∧
    List.filter (fun p => sortKey "view_count" p == 1000)
        (sort_posts_by_metric demoPosts "view_count") =
      List.filter (fun p => sortKey "view_count" p == 1000) demoPosts :=
  have h := sort_posts_by_metric_sorted_stable demoPosts "view_count" (by decide)
  ⟨h.1, h.2.1, h.2.2 1000⟩

/-- Lowercasing a character twice equals lowercasing it once. -/
theorem charToLower_idem (c : Char) : c.toLower.toLower = c.toLower := by
  show Char.toLower c.toLower = c.toLower
  by_cases h : c.toNat ≥ 65 ∧ c.toNat ≤ 90
  · have hv : (c.toNat + 32).isValidChar := Or.inl (by omega)
    have h1 : c.toLower = Char.ofNat (c.toNat + 32) := by
      unfold Char.toLower
      rw [if_pos h]
    have ht : (Char.ofNat (c.toNat + 32)).toNat = c.toNat + 32 := by
      rw [Char.ofNat, dif_pos hv]
      rfl
    rw [h1]
    unfold Char.toLower
    rw [ht, if_neg (by omega)]
  · have h1 : c.toLower = c := by
      unfold Char.toLower
      rw [if_neg h]
    rw [h1, h1]

/-- Lowercasing a string is idempotent. -/
theorem pyLower_idem (s : String) : pyLower (pyLower s) = pyLower s := by
  unfold pyLower
  refine congrArg String.mk ?_
  show (List.map Char.toLower s.data).map Char.toLower = List.map Char.toLower s.data
  rw [List.map_map]
  apply List.map_congr_left
  intro c _
  exact charToLower_idem c

/-- A successful association-list lookup returns one of the stored
values. -/
theorem lookup_mem_snd {α β : Type} [BEq α] (a : α) (l : List (α × β)) (b : β)
    (h : l.lookup a = some b) : b ∈ l.map Prod.snd := by
  induction l with
  | nil => simp at h
  | cons kv es ih =>
    obtain ⟨k0, b0⟩ := kv
    rw [List.lookup_cons] at h
    cases hek : a == k0 with
    | true =>
      rw [hek] at h
      injection h with h
      subst h
      simp
    | false =>
      rw [hek] at h
      simp only [List.map_cons, List.mem_cons]
      exact Or.inr (ih h)

/-- Every canonical name produced by the mapping table is a fixed point of
the key normalization. -/
theorem normKey_fix (c : String) (h : ∃ k, column_mappings k = some c) :
    normKey c = c := by
  obtain ⟨k, hk⟩ := h
  have hmem : c ∈ column_mappings_table.map Prod.snd :=
    lookup_mem_snd k column_mappings_table c hk
  have hall : ∀ x ∈ column_mappings_table.map Prod.snd, normKey x = x := by
    decide
  exact hall c hmem

/-- Key normalization is idempotent: canonical outputs and lower-cased
pass-through outputs are both fixed points. -/
theorem normKey_idem (k : String) : normKey (normKey k) = normKey k := by
  cases hc : column_mappings (pyLower k) with
  | some c =>
    have h1 : normKey k = c := by
      unfold normKey
      rw [hc]
      rfl
    rw [h1]
    exact normKey_fix c ⟨pyLower k, hc⟩
  | none =>
    have h1 : normKey k = pyLower k := by
      unfold normKey
      rw [hc]
      rfl
    rw [h1]
    unfold normKey
    rw [pyLower_idem, hc]
    rfl

/-- The key-membership test of `dictInsert` agrees with membership in the
key list. -/
theorem any_key_iff (d : List (String × Value)) (k : String) :
    (d.any (fun kv => kv.1 = k) = true) ↔ k ∈ d.map Prod.fst := by
  rw [List.any_eq_true]
  constructor
  · rintro ⟨kv, hkv, he⟩
    rw [List.mem_map]
    exact ⟨kv, hkv, of_decide_eq_true he⟩
  · intro h
    rw [List.mem_map] at h
    obtain ⟨kv, hkv, hfst⟩ := h
    exact ⟨kv, hkv, decide_eq_true hfst⟩

/-- Inserting a fresh key appends the binding. -/
theorem dictInsert_not_mem (d : List (String × Value)) (k : String) (v : Value)
    (h : k ∉ d.map Prod.fst) : dictInsert d k v = d ++ [(k, v)] := by
  unfold dictInsert
  rw [if_neg (fun hany => h ((any_key_iff d k).mp hany))]

/-- Updating an existing key leaves the key list unchanged. -/
theorem dictInsert_keys_of_mem (d : List (String × Value)) (k : String)
    (v : Value) (h : d.any (fun kv => kv.1 = k) = true) :
    (dictInsert d k v).map Prod.fst = d.map Prod.fst := by
  unfold dictInsert
  rw [if_pos h, List.map_map]
  apply List.map_congr_left
  intro kv _
  show Prod.fst (if kv.1 = k then (kv.1, v) else kv) = kv.1
  split <;> rfl

/-- A key of `dictInsert d k v` is a key of `d` or the inserted key. -/
theorem dictInsert_keys_subset (d : List (String × Value)) (k : String)
    (v : Value) (k' : String) (h : k' ∈ (dictInsert d k v).map Prod.fst) :
    k' ∈ d.map Prod.fst ∨ k' = k := by
  by_cases hany : d.any (fun kv => kv.1 = k) = true
  · rw [dictInsert_keys_of_mem d k v hany] at h
    exact Or.inl h
  · rw [dictInsert_not_mem d k v (fun hm => hany ((any_key_iff d k).mpr hm))] at h
    rw [List.map_append] at h
    rcases List.mem_append.mp h with h1 | h1
    · exact Or.inl h1
    · right
      simpa using h1

/-- `dictInsert` preserves distinctness of keys. -/
theorem dictInsert_keys_nodup (d : List (String × Value)) (k : String)
    (v : Value) (h : (d.map Prod.fst).Nodup) :
    ((dictInsert d k v).map Prod.fst).Nodup := by
  by_cases hany : d.any (fun kv => kv.1 = k) = true
  · rw [dictInsert_keys_of_mem d k v hany]
    exact h
  · have hnm : k ∉ d.map Prod.fst := fun hm => hany ((any_key_iff d k).mpr hm)
    rw [dictInsert_not_mem d k v hnm, List.map_append]
    refine List.Nodup.append h (by simp) ?_
    intro a ha hb
    simp only [List.map_cons, List.map_nil, List.mem_singleton] at hb
    subst hb
    exact hnm ha

/-- Invariant of the normalization fold: the accumulated dict keeps distinct
keys and every key is a fixed point of `normKey`. -/
theorem normalizeRecord_aux (post : List (String × Value)) :
    ∀ acc : List (String × Value),
      (acc.map Prod.fst).Nodup →
      (∀ k' ∈ acc.map Prod.fst, normKey k' = k') →
      (((post.foldl (fun a kv => dictInsert a (normKey kv.1) kv.2) acc).map
          Prod.fst).Nodup ∧
        ∀ k' ∈ (post.foldl (fun a kv => dictInsert a (normKey kv.1) kv.2)
            acc).map Prod.fst, normKey k' = k') := by
  induction post with
  | nil =>
    intro acc h1 h2
    exact ⟨h1, h2⟩
  | cons kv post ih =>
    intro acc h1 h2
    rw [List.foldl_cons]
    apply ih
    · exact dictInsert_keys_nodup acc (normKey kv.1) kv.2 h1
    · intro k' hk'
      rcases dictInsert_keys_subset acc (normKey kv.1) kv.2 k' hk' with h | h
      · exact h2 k' h
      · rw [h]
        exact normKey_idem kv.1

/-- Folding `dictInsert` over bindings whose keys are already normalized and
distinct from each other and from the accumulator appends them verbatim. -/
theorem foldl_dictInsert_fixed (post : List (String × Value)) :
    ∀ acc : List (String × Value),
      ((acc ++ post).map Prod.fst).Nodup →
      (∀ kv ∈ post, normKey kv.1 = kv.1) →
      post.foldl (fun a kv => dictInsert a (normKey kv.1) kv.2) acc =
        acc ++ post := by
  induction post with
  | nil =>
    intro acc _ _
    simp
  | cons kv post ih =>
    intro acc hnd hfix
    rw [List.foldl_cons]
    have hk : normKey kv.1 = kv.1 := hfix kv (List.mem_cons_self kv post)
    have hnotin : kv.1 ∉ acc.map Prod.fst := by
      rw [List.map_append] at hnd
      have hdisj := (List.nodup_append.mp hnd).2.2
      intro hmem
      exact hdisj hmem (by simp)
    rw [hk, dictInsert_not_mem acc kv.1 kv.2 hnotin]
    have happ : (acc ++ [kv]) ++ post = acc ++ kv :: post := by simp
    have hres := ih (acc ++ [kv]) (by rw [happ]; exact hnd)
      (fun kv' h => hfix kv' (List.mem_cons_of_mem kv h))
    rw [show acc ++ [(kv.1, kv.2)] = acc ++ [kv] from rfl, hres, happ]

/-- Normalizing a record twice equals normalizing it once. -/
theorem normalizeRecord_idem (post : PostRec) :
    normalizeRecord (normalizeRecord post) = normalizeRecord post := by
  have haux := normalizeRecord_aux post [] (by simp) (by simp)
  have hfix : ∀ kv ∈ post.foldl (fun a kv => dictInsert a (normKey kv.1) kv.2) [],
      normKey kv.1 = kv.1 := by
    intro kv hkv
    exact haux.2 kv.1 (List.mem_map_of_mem Prod.fst hkv)
  have hmain := foldl_dictInsert_fixed
    (post.foldl (fun a kv => dictInsert a (normKey kv.1) kv.2) []) []
    (by simpa using haux.1) hfix
  unfold normalizeRecord
  simpa using hmain

/-- C5: normalizing column names is idempotent: a second pass over
already-normalized records returns an equal list of records. -/
theorem normalize_column_names_idem (posts : List PostRec) :
    normalize_column_names (normalize_column_names posts) =
      normalize_column_names posts := by
  unfold normalize_column_names
  by_cases h : posts.isEmpty
  · simp [h]
  · rw [if_neg h]
    have h2 : (posts.map normalizeRecord).isEmpty = false := by
      cases posts with
      | nil => simp at h
      | cons p ps => rfl
    rw [if_neg (by simp [h2]), List.map_map]
    apply List.map_congr_left
    intro a _
    exact normalizeRecord_idem a
